import Mathlib

/-!
# Verification of the harmonic-NXO additive synthesizer

Shallow embedding of the audio engine of the `harmonic-nxo-demo` repository:
the envelope table engine (`public/ADSR.js`), the harmonic definition
normalizer and per-harmonic processor set (`public/nxo.js`), and the
AudioWorklet processor with its ring-buffer scheduler, voice lifecycle
manager and garbage collector (the unnamed worklet source, `NXOProcessor`).

Real-number quantities that JavaScript stores as IEEE doubles are modelled
as exact rationals (`ℚ`).  The transcendental `Math.exp` is abstracted as an
explicit function parameter `mexp : ℚ → ℚ` wherever its particular values do
not matter; where a claim is about the exponent handed to `Math.exp`, the
exponent expressions are embedded as named rational-valued definitions and
compared underneath the genuine `Real.exp`.

Audio sample values written into the ring buffer are not modelled: the
scheduler claims under study are about cursor discipline (playhead /
generation head / recompute counter), which is embedded exactly.
-/

namespace NXO

/-! ## Constants of the worklet processor -/

/-- `MAX_VOICES` from the worklet source: maximum simultaneous voices. -/
def MAX_VOICES : Nat := 10

/-- `RECOMPUTE_AFTER` from the worklet source. -/
def RECOMPUTE_AFTER : Nat := 512

/-- `BUFFER_SIZE` (the generation block length) from the worklet source. -/
def BUFFER_SIZE : Nat := 1024

/-- `RING_BUFFER_SIZE = BUFFER_SIZE * 2` from the worklet source. -/
def RING_BUFFER_SIZE : Nat := BUFFER_SIZE * 2

/-- `DEFAULT_NUM_TAU` from `ADSR.js`. -/
def DEFAULT_NUM_TAU : ℚ := 5

/-! ## Envelope parameters (`ADSR.js`, `nxo.js`)

One record per harmonic: `{ amplitude, attack, decay, sustain, release }`.
Following `ADSR.js`, the field `sustain` is the sustain *level*. -/

structure ADSRParams where
  amplitude : ℚ
  attack : ℚ
  decay : ℚ
  sustain : ℚ
  release : ℚ
deriving Repr, DecidableEq

/-- An instrument definition: association list from harmonic index (a
positive rational multiplier of the fundamental) to envelope parameters,
in object-key order. -/
def NXODef : Type := List (ℚ × ADSRParams)

/-! ## Envelope evaluation (`ADSR.js`) -/

/-- The exponent passed to `Math.exp` in the attack branch of
`evaluateTrueADS`:  the source computes `tau = attack / numTau`,
`p = t / attack` and calls `Math.exp(-p / tau)`. -/
def adsAttackExponent (attack numTau t : ℚ) : ℚ :=
  -((t / attack) / (attack / numTau))

/-- The exponent passed to `Math.exp` in the decay branch of
`evaluateTrueADS` (`t` is the time elapsed since the decay phase began):
the source computes `tau = decay / numTau`, `p = t / decay` and calls
`Math.exp(-p / tau)`. -/
def adsDecayExponent (decay numTau t : ℚ) : ℚ :=
  -((t / decay) / (decay / numTau))

/-- The attack-phase exponent as the specification describes it:
`-(t/attack) * numTau` (so that the curve reaches `1 - exp (-numTau)` of
peak at `t = attack` independently of the attack duration). -/
def specAttackExponent (attack numTau t : ℚ) : ℚ :=
  -((t / attack) * numTau)

/-- `evaluateTrueADS` from `ADSR.js`.  `mexp` abstracts `Math.exp`. -/
def evaluateTrueADS (mexp : ℚ → ℚ) (p : ADSRParams) (timeSinceNoteOn : ℚ)
    (numTau : ℚ) : ℚ :=
  if timeSinceNoteOn < p.attack then
    p.amplitude * (1 - mexp (adsAttackExponent p.attack numTau timeSinceNoteOn))
  else if timeSinceNoteOn < p.attack + p.decay then
    p.sustain +
      mexp (adsDecayExponent p.decay numTau (timeSinceNoteOn - p.attack)) *
        (p.amplitude - p.sustain)
  else
    p.sustain

/-- `evaluateTrueR` from `ADSR.js` (normalized release curve). -/
def evaluateTrueR (mexp : ℚ → ℚ) (p : ADSRParams) (timeSinceNoteOff : ℚ)
    (numTau : ℚ) : ℚ :=
  if p.release ≤ timeSinceNoteOff then 0
  else mexp (-((timeSinceNoteOff / p.release) / numTau))

/-! ## Envelope tables (`ADSR.js`) -/

/-- Number of entries of a precomputed table:
`totalSamples = Math.ceil(duration * sampleRate)`,
`numEntries = Math.ceil(totalSamples / samplesPerTableEntry)`. -/
def tableNumEntries (duration sampleRate : ℚ) (samplesPerTableEntry : Nat) : Nat :=
  let totalSamples : Nat := (Int.ceil (duration * sampleRate)).toNat
  (Int.ceil ((totalSamples : ℚ) / (samplesPerTableEntry : ℚ))).toNat

/-- `precomputeADSTable` from `ADSR.js`: entry `i` holds the ADS curve at
`t = i * samplesPerTableEntry / sampleRate`. -/
def precomputeADSTable (mexp : ℚ → ℚ) (p : ADSRParams) (sampleRate numTau : ℚ)
    (samplesPerTableEntry : Nat) : List ℚ :=
  (List.range (tableNumEntries (p.attack + p.decay) sampleRate samplesPerTableEntry)).map
    (fun i => evaluateTrueADS mexp p ((i * samplesPerTableEntry : Nat) / sampleRate) numTau)

/-- `precomputeRTable` from `ADSR.js`. -/
def precomputeRTable (mexp : ℚ → ℚ) (p : ADSRParams) (sampleRate numTau : ℚ)
    (samplesPerTableEntry : Nat) : List ℚ :=
  (List.range (tableNumEntries p.release sampleRate samplesPerTableEntry)).map
    (fun i => evaluateTrueR mexp p ((i * samplesPerTableEntry : Nat) / sampleRate) numTau)

/-- Index used by the `samplesPerTableEntry == 1` interpolator branch:
`Math.floor(time * sampleRate)`. -/
def directIndex (sampleRate time : ℚ) : Nat :=
  (Int.floor (time * sampleRate)).toNat

/-- Index used by the general interpolator branch:
`Math.floor(time * sampleRate / samplesPerTableEntry)`. -/
def entryIndex (samplesPerTableEntry : Nat) (sampleRate time : ℚ) : Nat :=
  (Int.floor (time * sampleRate / (samplesPerTableEntry : ℚ))).toNat

/-- `createTableInterpolator` from `ADSR.js`.  Out-of-range accesses (which
claim C8 shows never occur in the guarded region) default to `0`. -/
def createTableInterpolator (table : List ℚ) (duration sampleRate : ℚ)
    (samplesPerTableEntry : Nat) (valueBefore valueAfter : ℚ) (time : ℚ) : ℚ :=
  if samplesPerTableEntry = 1 then
    if time ≤ 0 then valueBefore
    else if duration ≤ time then valueAfter
    else table.getD (directIndex sampleRate time) 0
  else
    if time ≤ 0 then valueBefore
    else if duration ≤ time then valueAfter
    else
      let samples := time * sampleRate
      let entry := entryIndex samplesPerTableEntry sampleRate time
      let frac := (samples - (entry : ℚ) * (samplesPerTableEntry : ℚ)) /
        (samplesPerTableEntry : ℚ)
      let left := table.getD entry 0
      let right := if entry + 1 < table.length then table.getD (entry + 1) 0
        else valueAfter
      left + (right - left) * frac

/-- `createADSTableInterpolator` from `ADSR.js`:
`valueBefore = 0`, `valueAfter = sustain level`, `duration = attack + decay`. -/
def createADSTableInterpolator (table : List ℚ) (p : ADSRParams)
    (sampleRate : ℚ) (samplesPerTableEntry : Nat) (time : ℚ) : ℚ :=
  createTableInterpolator table (p.attack + p.decay) sampleRate
    samplesPerTableEntry 0 p.sustain time

/-- `createRTableInterpolator` from `ADSR.js`:
`valueBefore = 1`, `valueAfter = 0`, `duration = release`. -/
def createRTableInterpolator (table : List ℚ) (p : ADSRParams)
    (sampleRate : ℚ) (samplesPerTableEntry : Nat) (time : ℚ) : ℚ :=
  createTableInterpolator table p.release sampleRate samplesPerTableEntry 1 0 time

/-! ## Per-harmonic processor set (`nxo.js`, `buildNXOComputer`) -/

/-- The `whileNoteOn` closure built by `buildNXOComputer`:
`timeSinceNoteOn => ads.interp(timeSinceNoteOn)`. -/
def whileNoteOn (mexp : ℚ → ℚ) (p : ADSRParams) (sampleRate numTau : ℚ)
    (samplesPerTableEntry : Nat) (timeSinceNoteOn : ℚ) : ℚ :=
  createADSTableInterpolator
    (precomputeADSTable mexp p sampleRate numTau samplesPerTableEntry)
    p sampleRate samplesPerTableEntry timeSinceNoteOn

/-- The `whileNoteOff` closure built by `buildNXOComputer`:
start value is `definition.sustain` once `totalTimeNoteWasOn ≥ attack + decay`
(the `sustainTime`), else `ads.interp(totalTimeNoteWasOn)`; the result is the
start value times the normalized release interpolation. -/
def whileNoteOff (mexp : ℚ → ℚ) (p : ADSRParams) (sampleRate numTau : ℚ)
    (samplesPerTableEntry : Nat) (totalTimeNoteWasOn timeSinceNoteOff : ℚ) : ℚ :=
  let sustainTime := p.attack + p.decay
  let startVal :=
    if sustainTime ≤ totalTimeNoteWasOn then p.sustain
    else createADSTableInterpolator
      (precomputeADSTable mexp p sampleRate numTau samplesPerTableEntry)
      p sampleRate samplesPerTableEntry totalTimeNoteWasOn
  startVal *
    createRTableInterpolator
      (precomputeRTable mexp p sampleRate numTau samplesPerTableEntry)
      p sampleRate samplesPerTableEntry timeSinceNoteOff

/-- The level a released note restarts from, as the specification words it:
the sustain level when the note was held past `attack + decay`, and the
held-envelope value `whileNoteOn totalTimeNoteWasOn` otherwise. -/
def levelAtReleaseSpec (mexp : ℚ → ℚ) (p : ADSRParams) (sampleRate numTau : ℚ)
    (samplesPerTableEntry : Nat) (totalTimeNoteWasOn : ℚ) : ℚ :=
  if p.attack + p.decay ≤ totalTimeNoteWasOn then p.sustain
  else whileNoteOn mexp p sampleRate numTau samplesPerTableEntry totalTimeNoteWasOn

/-! ## Harmonic definition normalizer (`nxo.js`, `normalizeNXODef`) -/

/-- Sum of the `amplitude` fields (first loop of `normalizeNXODef`). -/
def totalAmplitude (d : NXODef) : ℚ :=
  (d.map (fun kv => kv.2.amplitude)).sum

/-- Sum of the `sustain` fields (second loop of `normalizeNXODef`). -/
def totalSustain (d : NXODef) : ℚ :=
  (d.map (fun kv => kv.2.sustain)).sum

/-- `normalizeNXODef` from `nxo.js`: divides each harmonic's `amplitude` and
`sustain` by the respective totals and leaves every other field (and the
harmonic keys) untouched. -/
def normalizeNXODef (d : NXODef) : NXODef :=
  d.map (fun kv =>
    (kv.1,
      { kv.2 with
        amplitude := kv.2.amplitude / totalAmplitude d
        sustain := kv.2.sustain / totalSustain d }))

/-- `computeReleasedNoteExpirationTime` from `nxo.js`:
`Math.max(...releases)`.  (`Math.max` of an empty spread is `-Infinity`; an
instrument always has at least one harmonic with a nonnegative release,
where folding from `0` agrees with the source.) -/
def computeReleasedNoteExpirationTime (d : NXODef) : ℚ :=
  (d.map (fun kv => kv.2.release)).foldl max 0

/-! ## The worklet processor state (`NXOProcessor`)

Per-note runtime state and the mutable processor fields.  The ring-buffer
sample values are floats and are not modelled; the cursors and counters (the
subject of the scheduler claims) are embedded exactly. -/

/-- One entry of `this.notes`: `{ velocity, samplesSinceNoteOn, on }`, with
`totalTimeNoteWasOn` filled in (seconds) at note-off.  Before note-off the
JavaScript object lacks `totalTimeNoteWasOn`; it is modelled as `0`, and is
only ever read when `on = false`. -/
structure Note where
  velocity : Nat
  samplesSinceNoteOn : Nat
  «on» : Bool
  totalTimeNoteWasOn : ℚ
deriving Repr, DecidableEq

/-- `Map.prototype.get`. -/
def mapGet (l : List (Nat × Note)) (k : Nat) : Option Note :=
  match l with
  | [] => none
  | kv :: rest => if kv.1 = k then some kv.2 else mapGet rest k

/-- `Map.prototype.set`: replaces in place if the key exists, else appends
(JavaScript `Map` preserves insertion order). -/
def mapSet (l : List (Nat × Note)) (k : Nat) (v : Note) : List (Nat × Note) :=
  if l.any (fun kv => kv.1 == k) then
    l.map (fun kv => if kv.1 == k then (k, v) else kv)
  else l ++ [(k, v)]

/-- `Map.prototype.delete`. -/
def mapDelete (l : List (Nat × Note)) (k : Nat) : List (Nat × Note) :=
  l.filter (fun kv => kv.1 != k)

/-- Seconds since a released note's note-off:
`samplesSinceNoteOn / sampleRate - totalTimeNoteWasOn`. -/
def noteTimeSinceOff (sampleRate : ℚ) (nd : Note) : ℚ :=
  (nd.samplesSinceNoteOn : ℚ) / sampleRate - nd.totalTimeNoteWasOn

/-- The full mutable state of `NXOProcessor` relevant to the claims. -/
structure NXOState where
  notes : List (Nat × Note)
  playhead : Nat
  generationHead : Nat
  samplesSinceLastCompute : Nat
  pendingGCDebounce : Bool
  samplesSinceLastGCCounter : Nat
deriving Repr, DecidableEq

/-- The constructor state: empty note map, both cursors at `0`, and
`samplesSinceLastCompute = RECOMPUTE_AFTER` so the first `process` call
generates immediately. -/
def initState : NXOState :=
  { notes := []
    playhead := 0
    generationHead := 0
    samplesSinceLastCompute := RECOMPUTE_AFTER
    pendingGCDebounce := false
    samplesSinceLastGCCounter := 0 }

/-- `GC_DEBOUNCE_SAMPLES = Math.ceil(releaseNoteExpirationTime * 1.5 * sampleRate)`. -/
def gcDebounceSamples (sampleRate expirationTime : ℚ) : Nat :=
  (Int.ceil (expirationTime * 1.5 * sampleRate)).toNat

/-- `runNoteGarbageCollection`: deletes every entry with `on = false` whose
time since note-off strictly exceeds the expiration time. -/
def runNoteGarbageCollection (sampleRate expirationTime : ℚ)
    (notes : List (Nat × Note)) : List (Nat × Note) :=
  notes.filter (fun kv =>
    kv.2.on || decide (noteTimeSinceOff sampleRate kv.2 ≤ expirationTime))

/-- The eviction scan of the `noteOn` handler: a fold tracking the entry with
the (first) strictly largest `samplesSinceNoteOn`.  The source seeds
`maxSamples` with `-Infinity`; counters are naturals, so seeding with `-1`
is equivalent. -/
def findOldestNote (notes : List (Nat × Note)) : Option Nat :=
  (notes.foldl
    (fun acc kv =>
      if (kv.2.samplesSinceNoteOn : ℤ) > acc.2 then
        (some kv.1, (kv.2.samplesSinceNoteOn : ℤ))
      else acc)
    ((none : Option Nat), (-1 : ℤ))).1

/-- The `noteOn` branch of `port.onmessage`: opportunistic GC, then eviction
of the longest-running note when at the polyphony cap, then insertion of the
fresh note. -/
def handleNoteOn (sampleRate expirationTime : ℚ) (note velocity : Nat)
    (s : NXOState) : NXOState :=
  let s1 := { s with notes := runNoteGarbageCollection sampleRate expirationTime s.notes }
  let s2 :=
    if MAX_VOICES ≤ s1.notes.length then
      match findOldestNote s1.notes with
      | some oldestNoteId => { s1 with notes := mapDelete s1.notes oldestNoteId }
      | none => s1
    else s1
  { s2 with
    notes := mapSet s2.notes note
      ({ velocity := velocity, samplesSinceNoteOn := 0, «on» := true
         totalTimeNoteWasOn := 0 }) }

/-- The successful `noteOff` state update: flips `on`, records
`totalTimeNoteWasOn = samplesSinceNoteOn / sampleRate` in place, arms the GC
debounce and resets its counter. -/
def applyNoteOff (sampleRate : ℚ) (note : Nat) (s : NXOState) : NXOState :=
  { s with
    notes := s.notes.map (fun kv =>
      if kv.1 == note then
        (kv.1,
          { kv.2 with
            «on» := false
            totalTimeNoteWasOn := (kv.2.samplesSinceNoteOn : ℚ) / sampleRate })
      else kv)
    pendingGCDebounce := true
    samplesSinceLastGCCounter := 0 }

/-- The `noteOff` branch of `port.onmessage`: throws
`No note found for noteOff` when the key has no active note (before touching
any state), otherwise applies the in-place update. -/
def handleNoteOff (sampleRate : ℚ) (note : Nat) (s : NXOState) :
    Except String NXOState :=
  match mapGet s.notes note with
  | none => Except.error "No note found for noteOff"
  | some _ => Except.ok (applyNoteOff sampleRate note s)

/-- Delivery of a `noteOff` message to the worklet: an exception thrown in
`port.onmessage` escapes the handler without mutating anything, and the
processor keeps rendering from the untouched state; the error is surfaced to
diagnostics.  Returns the next state and the reported error, if any. -/
def dispatchNoteOff (sampleRate : ℚ) (note : Nat) (s : NXOState) :
    NXOState × Option String :=
  match handleNoteOff sampleRate note s with
  | Except.ok s' => (s', none)
  | Except.error e => (s, some e)

/-- `generateMoreSamples`: writes `BUFFER_SIZE` fresh samples starting at
`generationHead` (sample values not modelled) and advances `generationHead`
by `RECOMPUTE_AFTER` modulo the ring size. -/
def generateMoreSamples (s : NXOState) : NXOState :=
  { s with generationHead := (s.generationHead + RECOMPUTE_AFTER) % RING_BUFFER_SIZE }

/-- The recompute guard at the top of `process`: regenerate and clear the
compute counter once `samplesSinceLastCompute >= RECOMPUTE_AFTER`. -/
def afterGenerate (s : NXOState) : NXOState :=
  if RECOMPUTE_AFTER ≤ s.samplesSinceLastCompute then
    { generateMoreSamples s with samplesSinceLastCompute := 0 }
  else s

/-- Advance every active note's `samplesSinceNoteOn` by the rendered block
length. -/
def advanceNotes (outputLen : Nat) (notes : List (Nat × Note)) : List (Nat × Note) :=
  notes.map (fun kv =>
    (kv.1, { kv.2 with samplesSinceNoteOn := kv.2.samplesSinceNoteOn + outputLen }))

/-- One `process` call with host block length `outputLen`: conditional
regeneration, ring-buffer read at the playhead (values not modelled),
per-note counter advance, playhead/compute-counter advance, then the GC
debounce check. -/
def processCall (sampleRate expirationTime : ℚ) (outputLen : Nat)
    (s : NXOState) : NXOState :=
  let s1 := afterGenerate s
  let s2 := { s1 with notes := advanceNotes outputLen s1.notes }
  let s3 := { s2 with
    playhead := (s2.playhead + outputLen) % RING_BUFFER_SIZE
    samplesSinceLastCompute := s2.samplesSinceLastCompute + outputLen }
  if s3.pendingGCDebounce then
    let c := s3.samplesSinceLastGCCounter + outputLen
    if gcDebounceSamples sampleRate expirationTime ≤ c then
      { s3 with
        notes := runNoteGarbageCollection sampleRate expirationTime s3.notes
        samplesSinceLastGCCounter := c
        pendingGCDebounce := false }
    else { s3 with samplesSinceLastGCCounter := c }
  else s3

/-- `(generationHead - playhead) mod capacity`, the ring-buffer cursor gap. -/
def cursorGap (s : NXOState) : Nat :=
  (s.generationHead + RING_BUFFER_SIZE - s.playhead) % RING_BUFFER_SIZE

/-- Offset of the read position `playhead + i` into the block most recently
written by `generateMoreSamples` (that block starts at
`generationHead - RECOMPUTE_AFTER` modulo the ring size and spans
`BUFFER_SIZE` samples).  The read is fresh exactly when this offset is below
`BUFFER_SIZE`. -/
def readOffsetFromLastWrite (s : NXOState) (i : Nat) : Nat :=
  (s.playhead + i + RING_BUFFER_SIZE + RECOMPUTE_AFTER - s.generationHead) %
    RING_BUFFER_SIZE

/-! ## Control/render event sequences -/

/-- A control-or-render event reaching the processor in the voice-cap
scenarios: a `noteOn` message or one host `process` call. -/
inductive NXOEvent where
  | noteOn (key velocity : Nat)
  | render (outputLen : Nat)
deriving Repr, DecidableEq

/-- The keys of the `noteOn` events, in arrival order. -/
def noteOnKeys : List NXOEvent → List Nat
  | [] => []
  | NXOEvent.noteOn k _ :: es => k :: noteOnKeys es
  | NXOEvent.render _ :: es => noteOnKeys es

/-- Run a sequence of events against the processor. -/
def runEvents (sampleRate expirationTime : ℚ) (s : NXOState) :
    List NXOEvent → NXOState
  | [] => s
  | NXOEvent.noteOn k v :: es =>
      runEvents sampleRate expirationTime
        (handleNoteOn sampleRate expirationTime k v s) es
  | NXOEvent.render L :: es =>
      runEvents sampleRate expirationTime
        (processCall sampleRate expirationTime L s) es

/-! ## Theorems -/

/-- C9: `normalizeNXODef` returns exactly the same harmonic keys, leaves
`attack`, `decay` and `release` of every harmonic unchanged, and rescales
only `amplitude` (divided by the amplitude total) and `sustain` (divided by
the sustain total). -/
theorem normalizeNXODef_frame (d : NXODef) :
    (normalizeNXODef d).map Prod.fst = d.map Prod.fst ∧
    (normalizeNXODef d).map (fun kv => (kv.2.attack, kv.2.decay, kv.2.release)) =
      d.map (fun kv => (kv.2.attack, kv.2.decay, kv.2.release)) ∧
    (normalizeNXODef d).map (fun kv => kv.2.amplitude) =
      d.map (fun kv => kv.2.amplitude / totalAmplitude d) ∧
    (normalizeNXODef d).map (fun kv => kv.2.sustain) =
      d.map (fun kv => kv.2.sustain / totalSustain d) := by
  refine ⟨?_, ?_, ?_, ?_⟩ <;> simp [normalizeNXODef]

/-- C7 counterexample: `normalizeNXODef` clamps no minimum duration floor;
a harmonic with a zero-length attack keeps it through normalization, so the
normalized output has a zero-length (hence shorter-than-any-floor) segment. -/
theorem normalizeNXODef_no_floor_counterexample :
    (normalizeNXODef [((1 : ℚ), ⟨1, 0, 1, 1/2, 1⟩)]).map (fun kv => kv.2.attack) =
      [0] ∧ (0 : ℚ) < 15 / 1000 := by
  constructor
  · rfl
  · norm_num

/-- C7 amended: no duration floor exists in `normalizeNXODef`: `attack`,
`decay` and `release` are passed through completely unchanged for every
harmonic (in particular, zero-length segments survive normalization). -/
theorem normalizeNXODef_durations_pass_through (d : NXODef) :
    (normalizeNXODef d).map (fun kv => (kv.2.attack, kv.2.decay, kv.2.release)) =
      d.map (fun kv => (kv.2.attack, kv.2.decay, kv.2.release)) := by
  simp [normalizeNXODef]

/-- C2 (code bug): in the attack branch, `evaluateTrueADS` hands `Math.exp`
the exponent `-(t/attack)/(attack/numTau) = -t*numTau/attack^2` instead of
the documented `-(t/attack)*numTau`.  At `amplitude = 1`, `attack = 2`,
`numTau = 5`, `t = 1` the code's exponent is `-5/4`, the specified one is
`-5/2`, and the resulting amplitudes differ. -/
theorem evaluateTrueADS_attack_exponent_mismatch :
    (∀ mexp : ℚ → ℚ,
      evaluateTrueADS mexp ⟨1, 2, 1, 1/2, 1⟩ 1 5 =
        1 * (1 - mexp (adsAttackExponent 2 5 1))) ∧
    adsAttackExponent 2 5 1 = -(5/4) ∧
    specAttackExponent 2 5 1 = -(5/2) ∧
    (1 : ℝ) - Real.exp ((adsAttackExponent 2 5 1 : ℚ) : ℝ) ≠
      (1 : ℝ) - Real.exp ((specAttackExponent 2 5 1 : ℚ) : ℝ) := by
  refine ⟨?_, by norm_num [adsAttackExponent], by norm_num [specAttackExponent], ?_⟩
  · intro mexp
    have h : (1 : ℚ) < 2 := by norm_num
    simp [evaluateTrueADS, h]
  · intro h
    have h2 : Real.exp ((adsAttackExponent 2 5 1 : ℚ) : ℝ) =
        Real.exp ((specAttackExponent 2 5 1 : ℚ) : ℝ) := by linarith
    have h3 := Real.exp_eq_exp.mp h2
    norm_num [adsAttackExponent, specAttackExponent] at h3

/-- C6: `whileNoteOff` factors as the release level times the normalized
release interpolation, where the release level is the sustain level once the
note was held at least `attack + decay` seconds and the held-envelope value
`whileNoteOn totalTimeNoteWasOn` otherwise. -/
theorem whileNoteOff_eq_levelAtRelease_mul (mexp : ℚ → ℚ) (p : ADSRParams)
    (sampleRate numTau : ℚ) (spe : Nat) (T t : ℚ) (hT : 0 ≤ T) (ht : 0 ≤ t) :
    whileNoteOff mexp p sampleRate numTau spe T t =
      levelAtReleaseSpec mexp p sampleRate numTau spe T *
        createRTableInterpolator (precomputeRTable mexp p sampleRate numTau spe)
          p sampleRate spe t := by
  rfl

/-- Witness for C6 at concrete inputs. -/
theorem whileNoteOff_eq_levelAtRelease_mul_witness :
    (0 : ℚ) ≤ 1 ∧ (0 : ℚ) ≤ 2 ∧
    whileNoteOff (fun _ => 0) ⟨1, 1, 1, 1/2, 1⟩ 10 5 1 1 2 =
      levelAtReleaseSpec (fun _ => 0) ⟨1, 1, 1, 1/2, 1⟩ 10 5 1 1 *
        createRTableInterpolator
          (precomputeRTable (fun _ => 0) ⟨1, 1, 1, 1/2, 1⟩ 10 5 1)
          ⟨1, 1, 1, 1/2, 1⟩ 10 1 2 :=
  ⟨by norm_num, by norm_num,
    whileNoteOff_eq_levelAtRelease_mul (fun _ => 0) ⟨1, 1, 1, 1/2, 1⟩ 10 5 1 1 2
      (by norm_num) (by norm_num)⟩

/-- C10: the garbage collector never removes a held note: an entry with
`on = true` survives `runNoteGarbageCollection` untouched. -/
theorem runNoteGarbageCollection_preserves_held (sampleRate expirationTime : ℚ)
    (notes : List (Nat × Note)) (k : Nat) (nd : Note)
    (hget : mapGet notes k = some nd) (hon : nd.on = true) :
    mapGet (runNoteGarbageCollection sampleRate expirationTime notes) k = some nd := by
  induction notes with
  | nil => simp [mapGet] at hget
  | cons kv rest ih =>
    unfold runNoteGarbageCollection at ih ⊢
    rw [List.filter_cons]
    unfold mapGet at hget
    by_cases hk : kv.1 = k
    · rw [if_pos hk] at hget
      have hv : kv.2 = nd := Option.some.inj hget
      rw [hv, hon]
      simp [mapGet, hk, hv]
    · rw [if_neg hk] at hget
      by_cases hkeep : (kv.2.on || decide (noteTimeSinceOff sampleRate kv.2 ≤ expirationTime)) = true
      · rw [hkeep]
        simp only [if_true]
        unfold mapGet
        rw [if_neg hk]
        exact ih hget
      · simp only [Bool.not_eq_true] at hkeep
        rw [hkeep]
        simp only [Bool.false_eq_true, if_false]
        exact ih hget

/-- Witness for C10 at a concrete map. -/
theorem runNoteGarbageCollection_preserves_held_witness :
    mapGet [(3, (⟨127, 9, true, 0⟩ : Note))] 3 = some ⟨127, 9, true, 0⟩ ∧
    (⟨127, 9, true, 0⟩ : Note).on = true ∧
    mapGet (runNoteGarbageCollection 10 1 [(3, ⟨127, 9, true, 0⟩)]) 3 =
      some ⟨127, 9, true, 0⟩ :=
  ⟨by decide, by decide,
    runNoteGarbageCollection_preserves_held 10 1 [(3, ⟨127, 9, true, 0⟩)] 3
      ⟨127, 9, true, 0⟩ (by decide) (by decide)⟩

/-- C5: a `noteOff` for a key with no active note raises the
`No note found for noteOff` error before mutating anything: the processor
state is left exactly as it was and any subsequent render call behaves as if
the message had never arrived. -/
theorem dispatchNoteOff_unknown_note (sampleRate : ℚ) (note : Nat) (s : NXOState)
    (h : mapGet s.notes note = none) :
    (dispatchNoteOff sampleRate note s).1 = s ∧
    (dispatchNoteOff sampleRate note s).2 = some "No note found for noteOff" ∧
    (∀ expirationTime L,
      processCall sampleRate expirationTime L (dispatchNoteOff sampleRate note s).1 =
        processCall sampleRate expirationTime L s) := by
  unfold dispatchNoteOff handleNoteOff
  rw [h]
  exact ⟨rfl, rfl, fun _ _ => rfl⟩

/-- Witness for C5: a `noteOff` on the empty initial map. -/
theorem dispatchNoteOff_unknown_note_witness :
    mapGet initState.notes 60 = none ∧
    (dispatchNoteOff 48000 60 initState).1 = initState ∧
    (dispatchNoteOff 48000 60 initState).2 = some "No note found for noteOff" := by
  refine ⟨by decide, ?_, ?_⟩
  · exact (dispatchNoteOff_unknown_note 48000 60 initState (by decide)).1
  · exact (dispatchNoteOff_unknown_note 48000 60 initState (by decide)).2.1

/-- The direct (per-sample) index is the general entry index at
`samplesPerTableEntry = 1`. -/
theorem directIndex_eq_entryIndex_one (sampleRate t : ℚ) :
    directIndex sampleRate t = entryIndex 1 sampleRate t := by
  unfold directIndex entryIndex
  rw [Nat.cast_one, div_one]

/-- Core bound for C8: for `0 < t < duration` the interpolator's table entry
index stays strictly below the precomputed table's entry count. -/
theorem entryIndex_lt_tableNumEntries (duration sampleRate : ℚ) (spe : Nat)
    (t : ℚ) (hrate : 0 < sampleRate) (hspe : 1 ≤ spe) (h0 : 0 < t)
    (h1 : t < duration) :
    entryIndex spe sampleRate t < tableNumEntries duration sampleRate spe := by
  unfold entryIndex tableNumEntries
  have hsq : (0 : ℚ) < (spe : ℚ) := by
    exact_mod_cast Nat.lt_of_lt_of_le Nat.zero_lt_one hspe
  have hdr : (0 : ℚ) < duration * sampleRate := mul_pos (h0.trans h1) hrate
  have hS0 : 0 < Int.ceil (duration * sampleRate) := Int.ceil_pos.mpr hdr
  have hSQ : (((Int.ceil (duration * sampleRate)).toNat : ℚ)) =
      ((Int.ceil (duration * sampleRate) : ℤ) : ℚ) := by
    exact_mod_cast congrArg (fun z : ℤ => (z : ℚ)) (Int.toNat_of_nonneg hS0.le)
  have h2 : t * sampleRate < (((Int.ceil (duration * sampleRate)).toNat : ℚ)) := by
    rw [hSQ]
    exact lt_of_lt_of_le (mul_lt_mul_of_pos_right h1 hrate)
      (Int.le_ceil (duration * sampleRate))
  have h3 : t * sampleRate / (spe : ℚ) <
      (((Int.ceil (duration * sampleRate)).toNat : ℚ)) / (spe : ℚ) := by
    exact div_lt_div_of_pos_right h2 hsq
  have hfl : Int.floor (t * sampleRate / (spe : ℚ)) <
      Int.ceil ((((Int.ceil (duration * sampleRate)).toNat : ℚ)) / (spe : ℚ)) :=
    Int.floor_lt.mpr (lt_of_lt_of_le h3
      (Int.le_ceil ((((Int.ceil (duration * sampleRate)).toNat : ℚ)) / (spe : ℚ))))
  have hc : 0 < Int.ceil ((((Int.ceil (duration * sampleRate)).toNat : ℚ)) / (spe : ℚ)) := by
    apply Int.ceil_pos.mpr
    apply div_pos _ hsq
    rw [hSQ]
    exact_mod_cast hS0
  exact (Int.toNat_lt_toNat hc).mpr hfl

/-- C8: both precomputed envelope table interpolators are total.  The ADS
kind returns `valueBefore = 0` for `t ≤ 0` and `valueAfter` (the sustain
level) for `t ≥ attack + decay`; the R kind returns `valueBefore = 1` for
`t ≤ 0` and `valueAfter = 0` for `t ≥ release`; in between, every table
index either interpolator can read is strictly within its precomputed
table. -/
theorem envelopeTableInterpolator_total (mexp : ℚ → ℚ) (p : ADSRParams)
    (sampleRate numTau : ℚ) (spe : Nat) (t : ℚ) (hrate : 0 < sampleRate)
    (hspe : 1 ≤ spe) (hads : 0 < p.attack + p.decay) (hrel : 0 < p.release) :
    (t ≤ 0 →
      createADSTableInterpolator (precomputeADSTable mexp p sampleRate numTau spe)
        p sampleRate spe t = 0) ∧
    (p.attack + p.decay ≤ t →
      createADSTableInterpolator (precomputeADSTable mexp p sampleRate numTau spe)
        p sampleRate spe t = p.sustain) ∧
    (0 < t → t < p.attack + p.decay →
      entryIndex spe sampleRate t <
        (precomputeADSTable mexp p sampleRate numTau spe).length ∧
      directIndex sampleRate t <
        (precomputeADSTable mexp p sampleRate numTau 1).length) ∧
    (t ≤ 0 →
      createRTableInterpolator (precomputeRTable mexp p sampleRate numTau spe)
        p sampleRate spe t = 1) ∧
    (p.release ≤ t →
      createRTableInterpolator (precomputeRTable mexp p sampleRate numTau spe)
        p sampleRate spe t = 0) ∧
    (0 < t → t < p.release →
      entryIndex spe sampleRate t <
        (precomputeRTable mexp p sampleRate numTau spe).length ∧
      directIndex sampleRate t <
        (precomputeRTable mexp p sampleRate numTau 1).length) := by
  have hlenA : ∀ s : Nat,
      (precomputeADSTable mexp p sampleRate numTau s).length =
        tableNumEntries (p.attack + p.decay) sampleRate s := by
    intro s
    simp [precomputeADSTable]
  have hlenR : ∀ s : Nat,
      (precomputeRTable mexp p sampleRate numTau s).length =
        tableNumEntries p.release sampleRate s := by
    intro s
    simp [precomputeRTable]
  refine ⟨?_, ?_, ?_, ?_, ?_, ?_⟩
  · intro h
    by_cases hs : spe = 1 <;>
      simp [createADSTableInterpolator, createTableInterpolator, hs, h]
  · intro h
    have hpos : 0 < t := lt_of_lt_of_le hads h
    have hns : ¬ t ≤ 0 := not_le.mpr hpos
    by_cases hs : spe = 1 <;>
      simp [createADSTableInterpolator, createTableInterpolator, hs, hns, h]
  · intro h0 h1
    constructor
    · rw [hlenA]
      exact entryIndex_lt_tableNumEntries _ _ _ _ hrate hspe h0 h1
    · rw [hlenA, directIndex_eq_entryIndex_one]
      exact entryIndex_lt_tableNumEntries _ _ _ _ hrate (le_refl 1) h0 h1
  · intro h
    by_cases hs : spe = 1 <;>
      simp [createRTableInterpolator, createTableInterpolator, hs, h]
  · intro h
    have hpos : 0 < t := lt_of_lt_of_le hrel h
    have hns : ¬ t ≤ 0 := not_le.mpr hpos
    by_cases hs : spe = 1 <;>
      simp [createRTableInterpolator, createTableInterpolator, hs, hns, h]
  · intro h0 h1
    constructor
    · rw [hlenR]
      exact entryIndex_lt_tableNumEntries _ _ _ _ hrate hspe h0 h1
    · rw [hlenR, directIndex_eq_entryIndex_one]
      exact entryIndex_lt_tableNumEntries _ _ _ _ hrate (le_refl 1) h0 h1

/-- Witness for C8 at concrete inputs, exercising both table kinds. -/
theorem envelopeTableInterpolator_total_witness :
    (0 : ℚ) < 100 ∧ (1 : Nat) ≤ 2 ∧
    (0 : ℚ) < (⟨1, 1/10, 1/10, 1/2, 1/5⟩ : ADSRParams).attack +
      (⟨1, 1/10, 1/10, 1/2, 1/5⟩ : ADSRParams).decay ∧
    (0 : ℚ) < (⟨1, 1/10, 1/10, 1/2, 1/5⟩ : ADSRParams).release ∧
    (((1 : ℚ)/100) ≤ 0 →
      createADSTableInterpolator
        (precomputeADSTable (fun _ => 0) ⟨1, 1/10, 1/10, 1/2, 1/5⟩ 100 5 2)
        ⟨1, 1/10, 1/10, 1/2, 1/5⟩ 100 2 (1/100) = 0) ∧
    ((⟨1, 1/10, 1/10, 1/2, 1/5⟩ : ADSRParams).attack +
        (⟨1, 1/10, 1/10, 1/2, 1/5⟩ : ADSRParams).decay ≤ 1/100 →
      createADSTableInterpolator
        (precomputeADSTable (fun _ => 0) ⟨1, 1/10, 1/10, 1/2, 1/5⟩ 100 5 2)
        ⟨1, 1/10, 1/10, 1/2, 1/5⟩ 100 2 (1/100) =
        (⟨1, 1/10, 1/10, 1/2, 1/5⟩ : ADSRParams).sustain) ∧
    ((0 : ℚ) < 1/100 →
      (1 : ℚ)/100 < (⟨1, 1/10, 1/10, 1/2, 1/5⟩ : ADSRParams).attack +
        (⟨1, 1/10, 1/10, 1/2, 1/5⟩ : ADSRParams).decay →
      entryIndex 2 100 (1/100) <
        (precomputeADSTable (fun _ => 0) ⟨1, 1/10, 1/10, 1/2, 1/5⟩ 100 5 2).length ∧
      directIndex 100 (1/100) <
        (precomputeADSTable (fun _ => 0) ⟨1, 1/10, 1/10, 1/2, 1/5⟩ 100 5 1).length) ∧
    (((1 : ℚ)/100) ≤ 0 →
      createRTableInterpolator
        (precomputeRTable (fun _ => 0) ⟨1, 1/10, 1/10, 1/2, 1/5⟩ 100 5 2)
        ⟨1, 1/10, 1/10, 1/2, 1/5⟩ 100 2 (1/100) = 1) ∧
    ((⟨1, 1/10, 1/10, 1/2, 1/5⟩ : ADSRParams).release ≤ 1/100 →
      createRTableInterpolator
        (precomputeRTable (fun _ => 0) ⟨1, 1/10, 1/10, 1/2, 1/5⟩ 100 5 2)
        ⟨1, 1/10, 1/10, 1/2, 1/5⟩ 100 2 (1/100) = 0) ∧
    ((0 : ℚ) < 1/100 →
      (1 : ℚ)/100 < (⟨1, 1/10, 1/10, 1/2, 1/5⟩ : ADSRParams).release →
      entryIndex 2 100 (1/100) <
        (precomputeRTable (fun _ => 0) ⟨1, 1/10, 1/10, 1/2, 1/5⟩ 100 5 2).length ∧
      directIndex 100 (1/100) <
        (precomputeRTable (fun _ => 0) ⟨1, 1/10, 1/10, 1/2, 1/5⟩ 100 5 1).length) := by
  have h := envelopeTableInterpolator_total (fun _ => 0)
    ⟨1, 1/10, 1/10, 1/2, 1/5⟩ 100 5 2 (1/100) (by norm_num) (by norm_num)
    (by norm_num) (by norm_num)
  exact ⟨by norm_num, by norm_num, by norm_num, by norm_num, h.1, h.2.1,
    h.2.2.1, h.2.2.2.1, h.2.2.2.2.1, h.2.2.2.2.2⟩

/-! Cursor projections of one `process` call (the GC-debounce branch never
touches the cursors). -/

theorem afterGenerate_playhead (s : NXOState) :
    (afterGenerate s).playhead = s.playhead := by
  unfold afterGenerate generateMoreSamples
  split <;> rfl

theorem afterGenerate_generationHead (s : NXOState) :
    (afterGenerate s).generationHead =
      if RECOMPUTE_AFTER ≤ s.samplesSinceLastCompute then
        (s.generationHead + RECOMPUTE_AFTER) % RING_BUFFER_SIZE
      else s.generationHead := by
  unfold afterGenerate generateMoreSamples
  split <;> rfl

theorem afterGenerate_samplesSinceLastCompute (s : NXOState) :
    (afterGenerate s).samplesSinceLastCompute =
      if RECOMPUTE_AFTER ≤ s.samplesSinceLastCompute then 0
      else s.samplesSinceLastCompute := by
  unfold afterGenerate generateMoreSamples
  split <;> rfl

theorem processCall_playhead (sampleRate expirationTime : ℚ) (L : Nat)
    (s : NXOState) :
    (processCall sampleRate expirationTime L s).playhead =
      ((afterGenerate s).playhead + L) % RING_BUFFER_SIZE := by
  unfold processCall
  dsimp only
  split_ifs <;> rfl

theorem processCall_generationHead (sampleRate expirationTime : ℚ) (L : Nat)
    (s : NXOState) :
    (processCall sampleRate expirationTime L s).generationHead =
      (afterGenerate s).generationHead := by
  unfold processCall
  dsimp only
  split_ifs <;> rfl

theorem processCall_samplesSinceLastCompute (sampleRate expirationTime : ℚ)
    (L : Nat) (s : NXOState) :
    (processCall sampleRate expirationTime L s).samplesSinceLastCompute =
      (afterGenerate s).samplesSinceLastCompute + L := by
  unfold processCall
  dsimp only
  split_ifs <;> rfl

/-- The scheduler's inductive cursor invariant: after any number of host
blocks of a fixed length `L` dividing `RECOMPUTE_AFTER`, the compute counter
never exceeds `RECOMPUTE_AFTER`, stays a multiple of `L`, and the generation
head sits exactly `RECOMPUTE_AFTER - samplesSinceLastCompute` ahead of the
playhead (modulo the ring size). -/
theorem schedInv_step (sampleRate expirationTime : ℚ) (L : Nat) (hL : 0 < L)
    (hdvd : L ∣ RECOMPUTE_AFTER) (s : NXOState)
    (h1 : s.playhead < RING_BUFFER_SIZE)
    (h2 : s.samplesSinceLastCompute ≤ RECOMPUTE_AFTER)
    (h3 : L ∣ s.samplesSinceLastCompute)
    (h4 : s.generationHead =
      (s.playhead + (RECOMPUTE_AFTER - s.samplesSinceLastCompute)) %
        RING_BUFFER_SIZE) :
    (processCall sampleRate expirationTime L s).playhead < RING_BUFFER_SIZE ∧
    (processCall sampleRate expirationTime L s).samplesSinceLastCompute ≤
      RECOMPUTE_AFTER ∧
    L ∣ (processCall sampleRate expirationTime L s).samplesSinceLastCompute ∧
    (processCall sampleRate expirationTime L s).generationHead =
      ((processCall sampleRate expirationTime L s).playhead +
        (RECOMPUTE_AFTER -
          (processCall sampleRate expirationTime L s).samplesSinceLastCompute)) %
        RING_BUFFER_SIZE := by
  have hL512 : L ≤ RECOMPUTE_AFTER :=
    Nat.le_of_dvd (by simp [RECOMPUTE_AFTER]) hdvd
  rw [processCall_playhead, processCall_generationHead,
    processCall_samplesSinceLastCompute, afterGenerate_playhead,
    afterGenerate_generationHead, afterGenerate_samplesSinceLastCompute]
  by_cases htrig : RECOMPUTE_AFTER ≤ s.samplesSinceLastCompute
  · have hsl : s.samplesSinceLastCompute = RECOMPUTE_AFTER := le_antisymm h2 htrig
    rw [if_pos htrig, if_pos htrig, h4, hsl]
    refine ⟨?_, ?_, ?_, ?_⟩
    · exact Nat.mod_lt _ (by simp [RING_BUFFER_SIZE, BUFFER_SIZE])
    · simpa using hL512
    · simp
    · simp only [RECOMPUTE_AFTER, RING_BUFFER_SIZE, BUFFER_SIZE] at *
      omega
  · rw [if_neg htrig, if_neg htrig, h4]
    obtain ⟨m, hm⟩ := h3
    obtain ⟨dd, hd⟩ := hdvd
    have hmdd : m < dd := by
      have : L * m < L * dd := by
        rw [← hm, ← hd]
        exact lt_of_not_ge htrig
      exact Nat.lt_of_mul_lt_mul_left this
    have hsum : s.samplesSinceLastCompute + L ≤ RECOMPUTE_AFTER := by
      have : L * (m + 1) ≤ L * dd := Nat.mul_le_mul_left L hmdd
      rw [hm, hd]
      calc L * m + L = L * (m + 1) := by ring
        _ ≤ L * dd := this
    refine ⟨?_, hsum, ?_, ?_⟩
    · exact Nat.mod_lt _ (by simp [RING_BUFFER_SIZE, BUFFER_SIZE])
    · exact Dvd.dvd.add ⟨m, hm⟩ (dvd_refl L)
    · simp only [RECOMPUTE_AFTER, RING_BUFFER_SIZE, BUFFER_SIZE] at *
      omega

/-- The cursor invariant holds at every state reachable from the constructor
state under fixed host blocks of length `L` dividing `RECOMPUTE_AFTER`. -/
theorem schedInv_reachable (sampleRate expirationTime : ℚ) (L : Nat)
    (hL : 0 < L) (hdvd : L ∣ RECOMPUTE_AFTER) (n : Nat) :
    ((processCall sampleRate expirationTime L)^[n] initState).playhead <
      RING_BUFFER_SIZE ∧
    ((processCall sampleRate expirationTime L)^[n]
      initState).samplesSinceLastCompute ≤ RECOMPUTE_AFTER ∧
    L ∣ ((processCall sampleRate expirationTime L)^[n]
      initState).samplesSinceLastCompute ∧
    ((processCall sampleRate expirationTime L)^[n] initState).generationHead =
      (((processCall sampleRate expirationTime L)^[n] initState).playhead +
        (RECOMPUTE_AFTER -
          ((processCall sampleRate expirationTime L)^[n]
            initState).samplesSinceLastCompute)) % RING_BUFFER_SIZE := by
  induction n with
  | zero =>
    simp only [Function.iterate_zero_apply]
    exact ⟨by decide, by decide, hdvd, by decide⟩
  | succ n ih =>
    rw [Function.iterate_succ_apply']
    exact schedInv_step sampleRate expirationTime L hL hdvd _ ih.1 ih.2.1
      ih.2.2.1 ih.2.2.2

/-- C1 counterexample: the claimed lower bound
`(generationHead - playhead) mod capacity ≥ blockLength - recomputeAfter`
fails on the code: four standard 128-sample host blocks from the initial
state leave the gap at `0 < 512`. -/
theorem ringBufferGap_claim_counterexample :
    cursorGap ((processCall 48000 1 128)^[4] initState) <
      BUFFER_SIZE - RECOMPUTE_AFTER := by
  decide

/-- C1 amended: with host blocks of a fixed length `L` dividing
`RECOMPUTE_AFTER` (the Web Audio quantum 128 does), every sample the
`process` call reads lies strictly inside the `BUFFER_SIZE`-sample span
written by the most recent `generateMoreSamples`, so no stale ring-buffer
data is ever played; the cursor gap `(generationHead - playhead) mod
capacity` is bounded above by `RECOMPUTE_AFTER` (and legitimately reaches
`0`), not below by `BUFFER_SIZE - RECOMPUTE_AFTER`. -/
theorem ringBufferReads_stay_fresh (sampleRate expirationTime : ℚ)
    (L n i : Nat) (hL : 0 < L) (hdvd : L ∣ RECOMPUTE_AFTER) (hi : i < L) :
    readOffsetFromLastWrite
      (afterGenerate ((processCall sampleRate expirationTime L)^[n] initState))
      i < BUFFER_SIZE ∧
    cursorGap ((processCall sampleRate expirationTime L)^[n] initState) ≤
      RECOMPUTE_AFTER := by
  obtain ⟨h1, h2, h3, h4⟩ := schedInv_reachable sampleRate expirationTime L hL
    hdvd n
  have hL512 : L ≤ RECOMPUTE_AFTER :=
    Nat.le_of_dvd (by simp [RECOMPUTE_AFTER]) hdvd
  set s := (processCall sampleRate expirationTime L)^[n] initState with hs
  constructor
  · unfold readOffsetFromLastWrite
    rw [afterGenerate_playhead, afterGenerate_generationHead]
    by_cases htrig : RECOMPUTE_AFTER ≤ s.samplesSinceLastCompute
    · rw [if_pos htrig, h4]
      have hsl : s.samplesSinceLastCompute = RECOMPUTE_AFTER :=
        le_antisymm h2 htrig
      rw [hsl]
      simp only [RECOMPUTE_AFTER, RING_BUFFER_SIZE, BUFFER_SIZE] at *
      omega
    · rw [if_neg htrig, h4]
      have hsum : s.samplesSinceLastCompute + L ≤ RECOMPUTE_AFTER := by
        obtain ⟨m, hm⟩ := h3
        obtain ⟨dd, hd⟩ := hdvd
        have hmdd : m < dd := by
          have : L * m < L * dd := by
            rw [← hm, ← hd]
            exact lt_of_not_ge htrig
          exact Nat.lt_of_mul_lt_mul_left this
        have : L * (m + 1) ≤ L * dd := Nat.mul_le_mul_left L hmdd
        rw [hm, hd]
        calc L * m + L = L * (m + 1) := by ring
          _ ≤ L * dd := this
      simp only [RECOMPUTE_AFTER, RING_BUFFER_SIZE, BUFFER_SIZE] at *
      omega
  · unfold cursorGap
    rw [h4]
    simp only [RECOMPUTE_AFTER, RING_BUFFER_SIZE, BUFFER_SIZE] at *
    omega

/-- Witness for the amended C1 at the standard Web Audio block length. -/
theorem ringBufferReads_stay_fresh_witness :
    0 < 128 ∧ 128 ∣ RECOMPUTE_AFTER ∧ 7 < 128 ∧
    (readOffsetFromLastWrite
      (afterGenerate ((processCall 48000 1 128)^[2] initState)) 7 <
        BUFFER_SIZE ∧
      cursorGap ((processCall 48000 1 128)^[2] initState) ≤ RECOMPUTE_AFTER) :=
  ⟨by decide, by decide, by decide,
    ringBufferReads_stay_fresh 48000 1 128 2 7 (by decide) (by decide)
      (by decide)⟩

/-! Note-map projections of one `process` call. -/

theorem afterGenerate_notes (s : NXOState) : (afterGenerate s).notes = s.notes := by
  unfold afterGenerate generateMoreSamples
  split <;> rfl

theorem afterGenerate_pendingGCDebounce (s : NXOState) :
    (afterGenerate s).pendingGCDebounce = s.pendingGCDebounce := by
  unfold afterGenerate generateMoreSamples
  split <;> rfl

theorem afterGenerate_samplesSinceLastGCCounter (s : NXOState) :
    (afterGenerate s).samplesSinceLastGCCounter = s.samplesSinceLastGCCounter := by
  unfold afterGenerate generateMoreSamples
  split <;> rfl

theorem processCall_notes (sampleRate expirationTime : ℚ) (L : Nat)
    (s : NXOState) :
    (processCall sampleRate expirationTime L s).notes =
      if s.pendingGCDebounce = true then
        if gcDebounceSamples sampleRate expirationTime ≤
            s.samplesSinceLastGCCounter + L then
          runNoteGarbageCollection sampleRate expirationTime
            (advanceNotes L s.notes)
        else advanceNotes L s.notes
      else advanceNotes L s.notes := by
  unfold processCall
  dsimp only
  rw [afterGenerate_notes, afterGenerate_pendingGCDebounce,
    afterGenerate_samplesSinceLastGCCounter]
  split_ifs <;> rfl

theorem processCall_pendingGCDebounce (sampleRate expirationTime : ℚ) (L : Nat)
    (s : NXOState) :
    (processCall sampleRate expirationTime L s).pendingGCDebounce =
      if s.pendingGCDebounce = true then
        if gcDebounceSamples sampleRate expirationTime ≤
            s.samplesSinceLastGCCounter + L then false
        else s.pendingGCDebounce
      else s.pendingGCDebounce := by
  unfold processCall
  dsimp only
  rw [afterGenerate_pendingGCDebounce, afterGenerate_samplesSinceLastGCCounter]
  split_ifs <;> rfl

theorem processCall_samplesSinceLastGCCounter (sampleRate expirationTime : ℚ)
    (L : Nat) (s : NXOState) :
    (processCall sampleRate expirationTime L s).samplesSinceLastGCCounter =
      if s.pendingGCDebounce = true then s.samplesSinceLastGCCounter + L
      else s.samplesSinceLastGCCounter := by
  unfold processCall
  dsimp only
  rw [afterGenerate_pendingGCDebounce, afterGenerate_samplesSinceLastGCCounter]
  split_ifs <;> rfl

/-! `mapGet` facts. -/

theorem mapGet_advanceNotes (L : Nat) (notes : List (Nat × Note)) (k : Nat) :
    mapGet (advanceNotes L notes) k =
      (mapGet notes k).map
        (fun nd => { nd with samplesSinceNoteOn := nd.samplesSinceNoteOn + L }) := by
  induction notes with
  | nil => rfl
  | cons kv rest ih =>
    unfold advanceNotes at ih ⊢
    simp only [List.map_cons]
    unfold mapGet
    by_cases h : kv.1 = k
    · simp [h]
    · simp only [h, if_false]
      exact ih

theorem mapGet_eq_none_of_not_mem (notes : List (Nat × Note)) (k : Nat)
    (h : k ∉ notes.map Prod.fst) : mapGet notes k = none := by
  induction notes with
  | nil => rfl
  | cons kv rest ih =>
    simp only [List.map_cons, List.mem_cons, not_or] at h
    unfold mapGet
    rw [if_neg (fun hk => h.1 hk.symm)]
    exact ih h.2

theorem mapGet_filter_eq_none (p : Nat × Note → Bool) (notes : List (Nat × Note))
    (k : Nat) (h : mapGet notes k = none) :
    mapGet (notes.filter p) k = none := by
  induction notes with
  | nil => rfl
  | cons kv rest ih =>
    unfold mapGet at h
    by_cases hk : kv.1 = k
    · rw [if_pos hk] at h
      exact absurd h (by simp)
    · rw [if_neg hk] at h
      rw [List.filter_cons]
      by_cases hp : p kv = true
      · rw [if_pos hp]
        unfold mapGet
        rw [if_neg hk]
        exact ih h
      · rw [if_neg hp]
        exact ih h

theorem mapGet_filter_of_kept (p : Nat × Note → Bool) (notes : List (Nat × Note))
    (k : Nat) (nd : Note) (h : mapGet notes k = some nd)
    (hkeep : ∀ k', p (k', nd) = true) :
    mapGet (notes.filter p) k = some nd := by
  induction notes with
  | nil => simp [mapGet] at h
  | cons kv rest ih =>
    unfold mapGet at h
    rw [List.filter_cons]
    by_cases hk : kv.1 = k
    · rw [if_pos hk] at h
      have hv : kv.2 = nd := Option.some.inj h
      have : p kv = true := by
        have := hkeep kv.1
        rwa [← hv, Prod.mk.eta] at this
      rw [this]
      simp only [if_true]
      unfold mapGet
      rw [if_pos hk, hv]
    · rw [if_neg hk] at h
      by_cases hp : p kv = true
      · rw [hp]
        simp only [if_true]
        unfold mapGet
        rw [if_neg hk]
        exact ih h
      · simp only [Bool.not_eq_true] at hp
        rw [hp]
        simp only [Bool.false_eq_true, if_false]
        exact ih h

theorem mapGet_filter_of_dropped (p : Nat × Note → Bool)
    (notes : List (Nat × Note)) (k : Nat) (nd : Note)
    (hnodup : (notes.map Prod.fst).Nodup) (h : mapGet notes k = some nd)
    (hdrop : ∀ k', p (k', nd) = false) :
    mapGet (notes.filter p) k = none := by
  induction notes with
  | nil => simp [mapGet] at h
  | cons kv rest ih =>
    simp only [List.map_cons, List.nodup_cons] at hnodup
    unfold mapGet at h
    rw [List.filter_cons]
    by_cases hk : kv.1 = k
    · rw [if_pos hk] at h
      have hv : kv.2 = nd := Option.some.inj h
      have : p kv = false := by
        have := hdrop kv.1
        rwa [← hv, Prod.mk.eta] at this
      rw [this]
      simp only [Bool.false_eq_true, if_false]
      apply mapGet_filter_eq_none
      apply mapGet_eq_none_of_not_mem
      rw [← hk]
      exact hnodup.1
    · rw [if_neg hk] at h
      by_cases hp : p kv = true
      · rw [hp]
        simp only [if_true]
        unfold mapGet
        rw [if_neg hk]
        exact ih hnodup.2 h
      · simp only [Bool.not_eq_true] at hp
        rw [hp]
        simp only [Bool.false_eq_true, if_false]
        exact ih hnodup.2 h

theorem mapGet_noteOffUpdate (sampleRate : ℚ) (k : Nat)
    (notes : List (Nat × Note)) (nd : Note) (h : mapGet notes k = some nd) :
    mapGet (notes.map (fun kv =>
      if kv.1 == k then
        (kv.1,
          { kv.2 with
            «on» := false
            totalTimeNoteWasOn := (kv.2.samplesSinceNoteOn : ℚ) / sampleRate })
      else kv)) k =
      some { nd with
        «on» := false
        totalTimeNoteWasOn := (nd.samplesSinceNoteOn : ℚ) / sampleRate } := by
  induction notes with
  | nil => simp [mapGet] at h
  | cons kv rest ih =>
    unfold mapGet at h
    simp only [List.map_cons]
    by_cases hk : kv.1 = k
    · rw [if_pos hk] at h
      have hv : kv.2 = nd := Option.some.inj h
      simp [mapGet, hk, hv]
    · rw [if_neg hk] at h
      have hbk : (kv.1 == k) = false := by simp [hk]
      simp only [hbk, Bool.false_eq_true, if_false]
      unfold mapGet
      rw [if_neg hk]
      exact ih h

theorem mapGet_applyNoteOff_self (sampleRate : ℚ) (k : Nat) (s : NXOState)
    (nd : Note) (h : mapGet s.notes k = some nd) :
    mapGet (applyNoteOff sampleRate k s).notes k =
      some { nd with
        «on» := false
        totalTimeNoteWasOn := (nd.samplesSinceNoteOn : ℚ) / sampleRate } := by
  unfold applyNoteOff
  dsimp only
  exact mapGet_noteOffUpdate sampleRate k s.notes nd h

/-! Key-list preservation. -/

theorem advanceNotes_keys (L : Nat) (notes : List (Nat × Note)) :
    (advanceNotes L notes).map Prod.fst = notes.map Prod.fst := by
  simp [advanceNotes]

theorem applyNoteOff_keys (sampleRate : ℚ) (k : Nat) (s : NXOState) :
    (applyNoteOff sampleRate k s).notes.map Prod.fst = s.notes.map Prod.fst := by
  unfold applyNoteOff
  dsimp only
  induction s.notes with
  | nil => rfl
  | cons kv rest ih =>
    by_cases hk : (kv.1 == k) = true
    · simp only [List.map_cons, hk, if_true, ih]
    · simp only [Bool.not_eq_true] at hk
      simp only [List.map_cons, hk, Bool.false_eq_true, if_false, ih]

theorem runNoteGarbageCollection_keys_nodup (sampleRate expirationTime : ℚ)
    (notes : List (Nat × Note)) (h : (notes.map Prod.fst).Nodup) :
    ((runNoteGarbageCollection sampleRate expirationTime notes).map Prod.fst).Nodup := by
  unfold runNoteGarbageCollection
  exact List.Nodup.sublist (List.Sublist.map Prod.fst (List.filter_sublist notes)) h

theorem processCall_keys_nodup (sampleRate expirationTime : ℚ) (L : Nat)
    (s : NXOState) (h : (s.notes.map Prod.fst).Nodup) :
    (((processCall sampleRate expirationTime L s).notes).map Prod.fst).Nodup := by
  rw [processCall_notes]
  have hadv : ((advanceNotes L s.notes).map Prod.fst).Nodup := by
    rw [advanceNotes_keys]
    exact h
  split_ifs with h1 h2
  · exact runNoteGarbageCollection_keys_nodup _ _ _ hadv
  · exact hadv
  · exact hadv

/-- The debounce threshold dominates `1.5 × expirationTime` in samples. -/
theorem gcDebounceSamples_ge (sampleRate expirationTime : ℚ)
    (hrate : 0 < sampleRate) (hexp : 0 < expirationTime) :
    expirationTime * 1.5 * sampleRate ≤
      ((gcDebounceSamples sampleRate expirationTime : ℕ) : ℚ) := by
  unfold gcDebounceSamples
  have h0 : (0 : ℚ) ≤ expirationTime * 1.5 * sampleRate := by positivity
  have hnn : 0 ≤ Int.ceil (expirationTime * 1.5 * sampleRate) :=
    Int.ceil_nonneg h0
  have hle := Int.le_ceil (expirationTime * 1.5 * sampleRate)
  calc expirationTime * 1.5 * sampleRate
      ≤ ((Int.ceil (expirationTime * 1.5 * sampleRate) : ℤ) : ℚ) := hle
    _ = (((Int.ceil (expirationTime * 1.5 * sampleRate)).toNat : ℕ) : ℚ) := by
        exact_mod_cast (congrArg (fun z : ℤ => (z : ℚ))
          (Int.toNat_of_nonneg hnn)).symm

/-- C4, presence half: a released note whose time since note-off (including
all queued render blocks) stays within the expiration time is never
collected. -/
theorem releasedNote_survives (sampleRate expirationTime : ℚ)
    (hrate : 0 < sampleRate) (k : Nat) :
    ∀ (Ls : List Nat) (s : NXOState) (vel n₀ : Nat) (t₀ : ℚ),
      mapGet s.notes k = some ⟨vel, n₀, false, t₀⟩ →
      (n₀ : ℚ) / sampleRate - t₀ + (Ls.sum : ℚ) / sampleRate ≤ expirationTime →
      (mapGet (Ls.foldl (fun s L => processCall sampleRate expirationTime L s)
        s).notes k).isSome = true := by
  intro Ls
  induction Ls with
  | nil =>
    intro s vel n₀ t₀ h hb
    simp [h]
  | cons L rest ih =>
    intro s vel n₀ t₀ h hb
    simp only [List.foldl_cons]
    have hadv : mapGet (advanceNotes L s.notes) k =
        some ⟨vel, n₀ + L, false, t₀⟩ := by
      rw [mapGet_advanceNotes, h]
      rfl
    have hsumsplit : ((L :: rest).sum : ℚ) = (L : ℚ) + (rest.sum : ℚ) := by
      rw [List.sum_cons, Nat.cast_add]
    have e1 : ((n₀ : ℚ) + (L : ℚ)) / sampleRate =
        (n₀ : ℚ) / sampleRate + (L : ℚ) / sampleRate := by ring
    have e2 : ((L : ℚ) + (rest.sum : ℚ)) / sampleRate =
        (L : ℚ) / sampleRate + (rest.sum : ℚ) / sampleRate := by ring
    rw [hsumsplit, e2] at hb
    have hcast : ((n₀ + L : ℕ) : ℚ) = (n₀ : ℚ) + (L : ℚ) := by
      rw [Nat.cast_add]
    have hstep : (((n₀ + L : ℕ)) : ℚ) / sampleRate - t₀ +
        (rest.sum : ℚ) / sampleRate ≤ expirationTime := by
      rw [hcast, e1]
      linarith
    have htso : (((n₀ + L : ℕ) : ℚ)) / sampleRate - t₀ ≤ expirationTime := by
      have e3 : (0 : ℚ) ≤ (rest.sum : ℚ) / sampleRate :=
        div_nonneg (by positivity) hrate.le
      linarith
    have hkeep : mapGet (processCall sampleRate expirationTime L s).notes k =
        some ⟨vel, n₀ + L, false, t₀⟩ := by
      rw [processCall_notes]
      split_ifs with h1 h2
      · unfold runNoteGarbageCollection
        apply mapGet_filter_of_kept _ _ _ _ hadv
        intro k'
        have : noteTimeSinceOff sampleRate (⟨vel, n₀ + L, false, t₀⟩ : Note) ≤
            expirationTime := by
          unfold noteTimeSinceOff
          exact htso
        simp [this]
      · exact hadv
      · exact hadv
    apply ih _ vel (n₀ + L) t₀ hkeep
    exact hstep

/-- C4, absence half (inductive invariant): after a note-off, either the note
is already gone, or the GC debounce is still armed with its counter equal to
the samples rendered since the note-off and strictly below the debounce
threshold. -/
theorem releasedNote_collected_inv (sampleRate expirationTime : ℚ)
    (hrate : 0 < sampleRate) (hexp : 0 < expirationTime) (k : Nat) :
    ∀ (Ls : List Nat) (c : Nat) (s : NXOState),
      (s.notes.map Prod.fst).Nodup →
      (mapGet s.notes k = none ∨
        (s.pendingGCDebounce = true ∧ s.samplesSinceLastGCCounter = c ∧
          c < gcDebounceSamples sampleRate expirationTime ∧
          ∃ vel n₀ : Nat, mapGet s.notes k =
            some ⟨vel, n₀ + c, false, (n₀ : ℚ) / sampleRate⟩)) →
      (mapGet (Ls.foldl (fun s L => processCall sampleRate expirationTime L s)
          s).notes k = none ∨
        ((Ls.foldl (fun s L => processCall sampleRate expirationTime L s)
            s).pendingGCDebounce = true ∧
          (Ls.foldl (fun s L => processCall sampleRate expirationTime L s)
            s).samplesSinceLastGCCounter = c + Ls.sum ∧
          c + Ls.sum < gcDebounceSamples sampleRate expirationTime ∧
          ∃ vel n₀ : Nat,
            mapGet (Ls.foldl (fun s L => processCall sampleRate expirationTime L s)
              s).notes k =
              some ⟨vel, n₀ + (c + Ls.sum), false, (n₀ : ℚ) / sampleRate⟩)) := by
  intro Ls
  induction Ls with
  | nil =>
    intro c s hnodup hinv
    simpa using hinv
  | cons L rest ih =>
    intro c s hnodup hinv
    simp only [List.foldl_cons, List.sum_cons]
    have hnodup' : (((processCall sampleRate expirationTime L s).notes).map
        Prod.fst).Nodup := processCall_keys_nodup _ _ _ _ hnodup
    have hassoc : c + (L + rest.sum) = (c + L) + rest.sum := by omega
    rw [hassoc]
    rcases hinv with hnone | ⟨hp, hc, hlt, vel, n₀, hsome⟩
    · -- the note is already gone and stays gone
      apply ih (c + L) _ hnodup'
      left
      rw [processCall_notes]
      have hadvnone : mapGet (advanceNotes L s.notes) k = none := by
        rw [mapGet_advanceNotes, hnone]
        rfl
      split_ifs with h1 h2
      · unfold runNoteGarbageCollection
        exact mapGet_filter_eq_none _ _ _ hadvnone
      · exact hadvnone
      · exact hadvnone
    · have hadv : mapGet (advanceNotes L s.notes) k =
          some ⟨vel, (n₀ + c) + L, false, (n₀ : ℚ) / sampleRate⟩ := by
        rw [mapGet_advanceNotes, hsome]
        rfl
      by_cases hfire :
          gcDebounceSamples sampleRate expirationTime ≤ c + L
      · -- the debounced GC pass fires during this render call and collects
        apply ih (c + L) _ hnodup'
        left
        rw [processCall_notes, if_pos hp, if_pos (by rw [hc]; exact hfire)]
        unfold runNoteGarbageCollection
        apply mapGet_filter_of_dropped _ _ _ _
          (by rw [advanceNotes_keys]; exact hnodup) hadv
        intro k'
        have hgt : expirationTime <
            noteTimeSinceOff sampleRate
              (⟨vel, (n₀ + c) + L, false, (n₀ : ℚ) / sampleRate⟩ : Note) := by
          unfold noteTimeSinceOff
          have hd : expirationTime * 1.5 * sampleRate ≤ ((c + L : ℕ) : ℚ) := by
            refine le_trans (gcDebounceSamples_ge sampleRate expirationTime
              hrate hexp) ?_
            exact_mod_cast hfire
          have hdiv : expirationTime * 1.5 ≤ ((c + L : ℕ) : ℚ) / sampleRate :=
            (le_div_iff₀ hrate).mpr hd
          have heq : (((n₀ + c) + L : ℕ) : ℚ) / sampleRate -
              (n₀ : ℚ) / sampleRate = ((c + L : ℕ) : ℚ) / sampleRate := by
            push_cast
            ring
          show expirationTime <
            (((n₀ + c) + L : ℕ) : ℚ) / sampleRate - (n₀ : ℚ) / sampleRate
          rw [heq]
          linarith
        have hnle : ¬ (noteTimeSinceOff sampleRate
            (⟨vel, (n₀ + c) + L, false, (n₀ : ℚ) / sampleRate⟩ : Note) ≤
              expirationTime) := not_le.mpr hgt
        simp [hnle]
      · -- debounce still pending: counter advances in lock step
        apply ih (c + L) _ hnodup'
        right
        have hnotes : (processCall sampleRate expirationTime L s).notes =
            advanceNotes L s.notes := by
          rw [processCall_notes, if_pos hp, if_neg (by rw [hc]; exact hfire)]
        have hpend :
            (processCall sampleRate expirationTime L s).pendingGCDebounce =
              true := by
          rw [processCall_pendingGCDebounce, if_pos hp,
            if_neg (by rw [hc]; exact hfire)]
          exact hp
        have hcount :
            (processCall sampleRate expirationTime L s).samplesSinceLastGCCounter =
              c + L := by
          rw [processCall_samplesSinceLastGCCounter, if_pos hp, hc]
        refine ⟨hpend, hcount, lt_of_not_ge hfire, vel, n₀, ?_⟩
        rw [hnotes, show n₀ + (c + L) = (n₀ + c) + L from by omega]
        exact hadv

/-- C4: a note that receives a note-off and then only render calls stays in
the active map as long as at most `expirationTime` seconds of samples have
been rendered since the note-off, and is gone from the map as soon as
`1.5 x expirationTime` seconds of samples (the debounce ceiling, at which
point the deferred GC pass runs) have accumulated. -/
theorem releasedNote_gc_timing (sampleRate expirationTime : ℚ)
    (hrate : 0 < sampleRate) (hexp : 0 < expirationTime)
    (s₀ : NXOState) (k : Nat) (nd : Note)
    (hnodup : (s₀.notes.map Prod.fst).Nodup)
    (hfind : mapGet s₀.notes k = some nd) (hon : nd.on = true)
    (Ls : List Nat) :
    (((Ls.sum : ℚ) ≤ expirationTime * sampleRate →
      (mapGet (Ls.foldl (fun s L => processCall sampleRate expirationTime L s)
        (applyNoteOff sampleRate k s₀)).notes k).isSome = true)) ∧
    ((gcDebounceSamples sampleRate expirationTime ≤ Ls.sum →
      mapGet (Ls.foldl (fun s L => processCall sampleRate expirationTime L s)
        (applyNoteOff sampleRate k s₀)).notes k = none)) := by
  have hoff : mapGet (applyNoteOff sampleRate k s₀).notes k =
      some ⟨nd.velocity, nd.samplesSinceNoteOn, false,
        (nd.samplesSinceNoteOn : ℚ) / sampleRate⟩ :=
    mapGet_applyNoteOff_self sampleRate k s₀ nd hfind
  constructor
  · intro hb
    apply releasedNote_survives sampleRate expirationTime hrate k Ls _
      nd.velocity nd.samplesSinceNoteOn
      ((nd.samplesSinceNoteOn : ℚ) / sampleRate) hoff
    have he : (nd.samplesSinceNoteOn : ℚ) / sampleRate -
        (nd.samplesSinceNoteOn : ℚ) / sampleRate + (Ls.sum : ℚ) / sampleRate =
        (Ls.sum : ℚ) / sampleRate := by ring
    rw [he]
    exact (div_le_iff₀ hrate).mpr hb
  · intro hb
    have hpend : (applyNoteOff sampleRate k s₀).pendingGCDebounce = true := rfl
    have hcnt :
        (applyNoteOff sampleRate k s₀).samplesSinceLastGCCounter = 0 := rfl
    have hdeb0 : 0 < gcDebounceSamples sampleRate expirationTime := by
      unfold gcDebounceSamples
      have hpos : (0 : ℚ) < expirationTime * 1.5 * sampleRate := by positivity
      have h1 : 0 < Int.ceil (expirationTime * 1.5 * sampleRate) :=
        Int.ceil_pos.mpr hpos
      omega
    have hnodup' :
        ((applyNoteOff sampleRate k s₀).notes.map Prod.fst).Nodup := by
      rw [applyNoteOff_keys]
      exact hnodup
    have hinv := releasedNote_collected_inv sampleRate expirationTime hrate
      hexp k Ls 0 _ hnodup'
      (Or.inr ⟨hpend, hcnt, hdeb0, nd.velocity, nd.samplesSinceNoteOn,
        by simpa using hoff⟩)
    rcases hinv with hnone | ⟨_, _, hlt, _⟩
    · exact hnone
    · exact absurd hb (by omega)

/-- Witness for C4, with the expiration time computed from a one-harmonic
instrument via `computeReleasedNoteExpirationTime`. -/
theorem releasedNote_gc_timing_witness :
    (0 : ℚ) < 10 ∧
    0 < computeReleasedNoteExpirationTime
      [((1 : ℚ), ⟨1, 1/200, 1/10, 0, 1/10⟩)] ∧
    (([(3, (⟨127, 0, true, 0⟩ : Note))] : List (Nat × Note)).map
      Prod.fst).Nodup ∧
    mapGet [(3, (⟨127, 0, true, 0⟩ : Note))] 3 = some ⟨127, 0, true, 0⟩ ∧
    (⟨127, 0, true, 0⟩ : Note).on = true ∧
    ((((([3] : List Nat).sum : ℚ) ≤ computeReleasedNoteExpirationTime
        [((1 : ℚ), ⟨1, 1/200, 1/10, 0, 1/10⟩)] * 10 →
      (mapGet (([3] : List Nat).foldl
        (fun s L => processCall 10 (computeReleasedNoteExpirationTime
          [((1 : ℚ), ⟨1, 1/200, 1/10, 0, 1/10⟩)]) L s)
        (applyNoteOff 10 3
          { initState with
            notes := [(3, ⟨127, 0, true, 0⟩)] })).notes 3).isSome = true)) ∧
    ((gcDebounceSamples 10 (computeReleasedNoteExpirationTime
        [((1 : ℚ), ⟨1, 1/200, 1/10, 0, 1/10⟩)]) ≤ ([3] : List Nat).sum →
      mapGet (([3] : List Nat).foldl
        (fun s L => processCall 10 (computeReleasedNoteExpirationTime
          [((1 : ℚ), ⟨1, 1/200, 1/10, 0, 1/10⟩)]) L s)
        (applyNoteOff 10 3
          { initState with
            notes := [(3, ⟨127, 0, true, 0⟩)] })).notes 3 = none))) :=
  by
  have hct : computeReleasedNoteExpirationTime
      [((1 : ℚ), ⟨1, 1/200, 1/10, 0, 1/10⟩)] = 1/10 := by
    simp only [computeReleasedNoteExpirationTime, List.map_cons, List.map_nil,
      List.foldl_cons, List.foldl_nil]
    exact max_eq_right (by norm_num)
  refine ⟨by norm_num, by rw [hct]; norm_num, by decide, by decide, by decide,
    ?_⟩
  exact releasedNote_gc_timing 10
    (computeReleasedNoteExpirationTime [((1 : ℚ), ⟨1, 1/200, 1/10, 0, 1/10⟩)])
    (by norm_num) (by rw [hct]; norm_num)
    { initState with notes := [(3, ⟨127, 0, true, 0⟩)] } 3 ⟨127, 0, true, 0⟩
    (by decide) (by decide) (by decide) [3]

/-! Voice-cap helper lemmas (C3). -/

/-- A GC sweep over a map of exclusively held notes removes nothing. -/
theorem runNoteGarbageCollection_of_all_on (sampleRate expirationTime : ℚ)
    (notes : List (Nat × Note)) (h : ∀ kv ∈ notes, kv.2.on = true) :
    runNoteGarbageCollection sampleRate expirationTime notes = notes := by
  unfold runNoteGarbageCollection
  apply List.filter_eq_self.mpr
  intro kv hkv
  simp [h kv hkv]

/-- The eviction fold never moves off an accumulator that already dominates
every remaining counter (the source compares with strict `>`). -/
theorem findOldestNote_foldl_const (a : Nat) (c : ℤ) :
    ∀ l : List (Nat × Note), (∀ x ∈ l, (x.2.samplesSinceNoteOn : ℤ) ≤ c) →
      l.foldl
        (fun acc kv =>
          if (kv.2.samplesSinceNoteOn : ℤ) > acc.2 then
            (some kv.1, (kv.2.samplesSinceNoteOn : ℤ))
          else acc)
        ((some a : Option Nat), c) = (some a, c) := by
  intro l
  induction l with
  | nil => intro _; rfl
  | cons kv rest ih =>
    intro h
    simp only [List.foldl_cons]
    rw [if_neg (not_lt.mpr (h kv (List.mem_cons_self kv rest)))]
    exact ih (fun x hx => h x (List.mem_cons_of_mem kv hx))

/-- When the head of the note map carries the (weakly) largest
`samplesSinceNoteOn`, the eviction scan selects exactly the head: insertion
order breaks ties, so the oldest note is evicted. -/
theorem findOldestNote_cons_of_max (kv : Nat × Note) (rest : List (Nat × Note))
    (h : ∀ x ∈ rest, x.2.samplesSinceNoteOn ≤ kv.2.samplesSinceNoteOn) :
    findOldestNote (kv :: rest) = some kv.1 := by
  unfold findOldestNote
  simp only [List.foldl_cons]
  rw [if_pos (lt_of_lt_of_le (by norm_num) (Int.natCast_nonneg _))]
  rw [findOldestNote_foldl_const kv.1 _ rest
    (fun x hx => by exact_mod_cast h x hx)]

/-- Deleting the head key of a key-distinct map drops exactly the head. -/
theorem mapDelete_cons_head (kv : Nat × Note) (rest : List (Nat × Note))
    (h : ∀ x ∈ rest, x.1 ≠ kv.1) :
    mapDelete (kv :: rest) kv.1 = rest := by
  unfold mapDelete
  rw [List.filter_cons]
  have hself : (kv.1 != kv.1) = false := by simp
  rw [hself]
  simp only [Bool.false_eq_true, if_false]
  apply List.filter_eq_self.mpr
  intro x hx
  simp [h x hx]

/-- `Map.set` with a key not yet present appends in insertion order. -/
theorem mapSet_of_fresh (notes : List (Nat × Note)) (k : Nat) (v : Note)
    (h : k ∉ notes.map Prod.fst) :
    mapSet notes k v = notes ++ [(k, v)] := by
  unfold mapSet
  have hna : ¬ (notes.any (fun kv => kv.1 == k) = true) := by
    simp only [List.any_eq_true]
    rintro ⟨x, hx, hbe⟩
    exact h (List.mem_map.mpr ⟨x, hx, by simpa using hbe⟩)
  rw [if_neg hna]

/-- What the `noteOn` handler does to the note map when every present note is
held (so its opportunistic GC sweep is the identity). -/
theorem handleNoteOn_notes_char (sampleRate expirationTime : ℚ) (k v : Nat)
    (s : NXOState) (hon : ∀ kv ∈ s.notes, kv.2.on = true) :
    (handleNoteOn sampleRate expirationTime k v s).notes =
      if MAX_VOICES ≤ s.notes.length then
        match findOldestNote s.notes with
        | some oldestNoteId =>
            mapSet (mapDelete s.notes oldestNoteId) k ⟨v, 0, true, 0⟩
        | none => mapSet s.notes k ⟨v, 0, true, 0⟩
      else mapSet s.notes k ⟨v, 0, true, 0⟩ := by
  unfold handleNoteOn
  dsimp only
  rw [runNoteGarbageCollection_of_all_on _ _ _ hon]
  split
  · split <;> rfl
  · rfl

/-- The `noteOn` handler never touches the GC debounce flag. -/
theorem handleNoteOn_pendingGCDebounce (sampleRate expirationTime : ℚ)
    (k v : Nat) (s : NXOState) :
    (handleNoteOn sampleRate expirationTime k v s).pendingGCDebounce =
      s.pendingGCDebounce := by
  unfold handleNoteOn
  dsimp only
  split
  · split <;> rfl
  · rfl

/-- Voice-cap invariant, render step: a `process` call with no pending GC
debounce only advances every counter by the block length, preserving keys
(in order), the weakly-decreasing counter order, and heldness. -/
theorem voiceInv_render (sampleRate expirationTime : ℚ) (L : Nat)
    (s : NXOState) (hpend : s.pendingGCDebounce = false)
    (hpair : List.Pairwise (fun a b => b ≤ a)
      (s.notes.map (fun kv => kv.2.samplesSinceNoteOn)))
    (hon : ∀ kv ∈ s.notes, kv.2.on = true) :
    (processCall sampleRate expirationTime L s).notes.map Prod.fst =
      s.notes.map Prod.fst ∧
    List.Pairwise (fun a b => b ≤ a)
      ((processCall sampleRate expirationTime L s).notes.map
        (fun kv => kv.2.samplesSinceNoteOn)) ∧
    (∀ kv ∈ (processCall sampleRate expirationTime L s).notes,
      kv.2.on = true) ∧
    (processCall sampleRate expirationTime L s).pendingGCDebounce = false := by
  have hnotes : (processCall sampleRate expirationTime L s).notes =
      advanceNotes L s.notes := by
    rw [processCall_notes, hpend]
    simp
  have hpend' :
      (processCall sampleRate expirationTime L s).pendingGCDebounce = false := by
    rw [processCall_pendingGCDebounce, hpend]
    simp
  refine ⟨?_, ?_, ?_, hpend'⟩
  · rw [hnotes, advanceNotes_keys]
  · rw [hnotes]
    unfold advanceNotes
    rw [List.map_map]
    rw [List.pairwise_map] at hpair ⊢
    exact hpair.imp (fun h => by simpa using Nat.add_le_add_right h L)
  · rw [hnotes]
    unfold advanceNotes
    intro kv hkv
    obtain ⟨kv₀, hkv₀, rfl⟩ := List.mem_map.mp hkv
    exact hon kv₀ hkv₀

/-- Voice-cap invariant, `noteOn` step: inserting a fresh key keeps exactly
the most recent `MAX_VOICES` keys (in arrival order), evicting the head
(the oldest note) when the cap is already reached. -/
theorem voiceInv_noteOn (sampleRate expirationTime : ℚ) (k v : Nat)
    (s : NXOState) (ks : List Nat) (hnodup : ks.Nodup) (hfresh : k ∉ ks)
    (hkeys : s.notes.map Prod.fst = ks.drop (ks.length - MAX_VOICES))
    (hpair : List.Pairwise (fun a b => b ≤ a)
      (s.notes.map (fun kv => kv.2.samplesSinceNoteOn)))
    (hon : ∀ kv ∈ s.notes, kv.2.on = true) :
    (handleNoteOn sampleRate expirationTime k v s).notes.map Prod.fst =
      (ks ++ [k]).drop ((ks ++ [k]).length - MAX_VOICES) ∧
    List.Pairwise (fun a b => b ≤ a)
      ((handleNoteOn sampleRate expirationTime k v s).notes.map
        (fun kv => kv.2.samplesSinceNoteOn)) ∧
    (∀ kv ∈ (handleNoteOn sampleRate expirationTime k v s).notes,
      kv.2.on = true) := by
  have hknotin : k ∉ s.notes.map Prod.fst := by
    rw [hkeys]
    intro hmem
    exact hfresh (List.mem_of_mem_drop hmem)
  have hlen2 : s.notes.length = ks.length - (ks.length - MAX_VOICES) := by
    have := congrArg List.length hkeys
    rwa [List.length_map, List.length_drop] at this
  have happlen : (ks ++ [k]).length = ks.length + 1 := by
    simp
  rw [handleNoteOn_notes_char sampleRate expirationTime k v s hon]
  by_cases hcap : MAX_VOICES ≤ s.notes.length
  · -- at the cap: the head (oldest) note is evicted first
    have hkslen : MAX_VOICES ≤ ks.length := by omega
    obtain ⟨kv0, rest, hcons⟩ : ∃ kv0 rest, s.notes = kv0 :: rest := by
      cases hsn : s.notes with
      | nil =>
        rw [hsn] at hcap
        simp [MAX_VOICES] at hcap
      | cons a l => exact ⟨a, l, rfl⟩
    have hrestmax : ∀ x ∈ rest, x.2.samplesSinceNoteOn ≤
        kv0.2.samplesSinceNoteOn := by
      rw [hcons] at hpair
      simp only [List.map_cons, List.pairwise_cons] at hpair
      intro x hx
      exact hpair.1 _ (List.mem_map.mpr ⟨x, hx, rfl⟩)
    have hfo : findOldestNote s.notes = some kv0.1 := by
      rw [hcons]
      exact findOldestNote_cons_of_max kv0 rest hrestmax
    have hkeysnodup : (s.notes.map Prod.fst).Nodup := by
      rw [hkeys]
      exact List.Nodup.sublist (List.drop_sublist _ _) hnodup
    have hrestne : ∀ x ∈ rest, x.1 ≠ kv0.1 := by
      rw [hcons] at hkeysnodup
      simp only [List.map_cons, List.nodup_cons] at hkeysnodup
      intro x hx he
      exact hkeysnodup.1 (he ▸ List.mem_map.mpr ⟨x, hx, rfl⟩)
    have hdel : mapDelete s.notes kv0.1 = rest := by
      rw [hcons]
      exact mapDelete_cons_head kv0 rest hrestne
    have hkrest : k ∉ rest.map Prod.fst := by
      intro hmem
      apply hknotin
      rw [hcons]
      simp only [List.map_cons]
      exact List.mem_cons_of_mem _ hmem
    rw [if_pos hcap, hfo]
    simp only []
    rw [hdel, mapSet_of_fresh rest k _ hkrest]
    have hresteq : rest.map Prod.fst = ks.drop (ks.length - MAX_VOICES + 1) := by
      have : (s.notes.map Prod.fst).tail = rest.map Prod.fst := by
        rw [hcons]
        rfl
      rw [← this, hkeys, List.tail_drop]
    refine ⟨?_, ?_, ?_⟩
    · rw [List.map_append, hresteq, happlen]
      have hidx : ks.length + 1 - MAX_VOICES = (ks.length - MAX_VOICES) + 1 := by
        omega
      have hle : (ks.length - MAX_VOICES) + 1 ≤ ks.length := by
        have h10 : MAX_VOICES = 10 := rfl
        omega
      rw [hidx, List.drop_append_of_le_length hle]
      rfl
    · rw [List.map_append]
      apply List.pairwise_append.mpr
      refine ⟨?_, ?_, ?_⟩
      · rw [hcons] at hpair
        simp only [List.map_cons, List.pairwise_cons] at hpair
        exact hpair.2
      · simp
      · intro a _ b hb
        simp only [List.map_cons, List.map_nil, List.mem_singleton] at hb
        subst hb
        exact Nat.zero_le a
    · intro kv hkv
      rcases List.mem_append.mp hkv with hl | hr
      · exact hon kv (by rw [hcons]; exact List.mem_cons_of_mem _ hl)
      · simp only [List.mem_singleton] at hr
        subst hr
        rfl
  · -- below the cap: plain insertion
    have hks10 : ks.length < MAX_VOICES := by omega
    have hdrop0 : ks.length - MAX_VOICES = 0 := by omega
    have hdrop0' : (ks ++ [k]).length - MAX_VOICES = 0 := by
      rw [happlen]
      omega
    rw [if_neg hcap, mapSet_of_fresh s.notes k _ hknotin]
    refine ⟨?_, ?_, ?_⟩
    · rw [List.map_append, hkeys, hdrop0, hdrop0', List.drop_zero,
        List.drop_zero]
      rfl
    · rw [List.map_append]
      apply List.pairwise_append.mpr
      refine ⟨hpair, by simp, ?_⟩
      intro a _ b hb
      simp only [List.map_cons, List.map_nil, List.mem_singleton] at hb
      subst hb
      exact Nat.zero_le a
    · intro kv hkv
      rcases List.mem_append.mp hkv with hl | hr
      · exact hon kv hl
      · simp only [List.mem_singleton] at hr
        subst hr
        rfl

/-- The voice-cap invariant threaded through an arbitrary sequence of
fresh-key `noteOn` messages and render calls: the map always holds exactly
the most recent `min (count) MAX_VOICES` note-on keys, in arrival order. -/
theorem voiceInv_runEvents (sampleRate expirationTime : ℚ) :
    ∀ (events : List NXOEvent) (s : NXOState) (ks : List Nat),
      (ks ++ noteOnKeys events).Nodup →
      s.notes.map Prod.fst = ks.drop (ks.length - MAX_VOICES) →
      List.Pairwise (fun a b => b ≤ a)
        (s.notes.map (fun kv => kv.2.samplesSinceNoteOn)) →
      (∀ kv ∈ s.notes, kv.2.on = true) →
      s.pendingGCDebounce = false →
      (runEvents sampleRate expirationTime s events).notes.map Prod.fst =
        (ks ++ noteOnKeys events).drop
          ((ks ++ noteOnKeys events).length - MAX_VOICES) := by
  intro events
  induction events with
  | nil =>
    intro s ks hnd hkeys hpair hon hpend
    simpa [runEvents, noteOnKeys] using hkeys
  | cons e rest ih =>
    intro s ks hnd hkeys hpair hon hpend
    cases e with
    | render L =>
      have h := voiceInv_render sampleRate expirationTime L s hpend hpair hon
      exact ih (processCall sampleRate expirationTime L s) ks hnd
        (h.1.trans hkeys) h.2.1 h.2.2.1 h.2.2.2
    | noteOn k v =>
      have hnd' : ((ks ++ [k]) ++ noteOnKeys rest).Nodup := by
        rw [← List.append_cons]
        exact hnd
      have hsplit := List.nodup_append.mp hnd
      have hksnodup : ks.Nodup := hsplit.1
      have hfresh : k ∉ ks := by
        intro hmem
        exact hsplit.2.2 hmem (List.mem_cons_self k _)
      have h := voiceInv_noteOn sampleRate expirationTime k v s ks hksnodup
        hfresh hkeys hpair hon
      have hpend' :
          (handleNoteOn sampleRate expirationTime k v s).pendingGCDebounce =
            false := by
        rw [handleNoteOn_pendingGCDebounce]
        exact hpend
      have hrec := ih (handleNoteOn sampleRate expirationTime k v s)
        (ks ++ [k]) hnd' h.1 h.2.1 h.2.2 hpend'
      rw [← List.append_cons] at hrec
      simp only [noteOnKeys]
      exact hrec

/-- C3: issuing `MAX_VOICES + kk` note-ons on pairwise-distinct keys (with
render calls freely interleaved and no note-offs) leaves exactly
`MAX_VOICES` notes in the map, namely the most recent `MAX_VOICES` keys in
arrival order: the `kk` oldest (largest `samplesSinceNoteOn`) notes were
evicted, oldest first. -/
theorem voiceCap_eviction (sampleRate expirationTime : ℚ)
    (events : List NXOEvent) (kk : Nat)
    (hnodup : (noteOnKeys events).Nodup)
    (hlen : (noteOnKeys events).length = MAX_VOICES + kk) (hk : 0 < kk) :
    (runEvents sampleRate expirationTime initState events).notes.map Prod.fst =
      (noteOnKeys events).drop kk ∧
    (runEvents sampleRate expirationTime initState events).notes.length =
      MAX_VOICES := by
  have h := voiceInv_runEvents sampleRate expirationTime events initState []
    (by simpa using hnodup) (by simp [initState]) (by simp [initState])
    (by simp [initState]) rfl
  simp only [List.nil_append] at h
  rw [hlen] at h
  have hidx : MAX_VOICES + kk - MAX_VOICES = kk := by omega
  rw [hidx] at h
  refine ⟨h, ?_⟩
  have hl := congrArg List.length h
  rw [List.length_map, List.length_drop, hlen] at hl
  rw [hl]
  omega

/-- Witness for C3: eleven distinct note-ons against the ten-voice cap. -/
theorem voiceCap_eviction_witness :
    (noteOnKeys ((List.range 11).map (fun i => NXOEvent.noteOn i 127))).Nodup ∧
    (noteOnKeys ((List.range 11).map
      (fun i => NXOEvent.noteOn i 127))).length = MAX_VOICES + 1 ∧
    0 < 1 ∧
    ((runEvents 48000 1 initState
        ((List.range 11).map (fun i => NXOEvent.noteOn i 127))).notes.map
        Prod.fst =
      (noteOnKeys ((List.range 11).map
        (fun i => NXOEvent.noteOn i 127))).drop 1 ∧
    (runEvents 48000 1 initState
        ((List.range 11).map (fun i => NXOEvent.noteOn i 127))).notes.length =
      MAX_VOICES) :=
  ⟨by decide, by decide, by decide,
    voiceCap_eviction 48000 1
      ((List.range 11).map (fun i => NXOEvent.noteOn i 127)) 1
      (by decide) (by decide) (by decide)⟩

end NXO
